import Mathlib

/-!
Verification of the resource-allocation pipeline of `src/cli.rs`
(`convert_dir` and its inner closures `validate_port` / `get_new_port`,
the IP-address assignment loop, the tor-entry round-robin splitter, and
the write/abort skeleton of the whole run).

Ports are modelled as `Nat` (the source uses `u16`; none of the verified
properties depends on `u16` wrap-around, which the source would only meet
after 65536 consecutively occupied ports).  The source's
`HashMap<u16, PortCacheMapEntry>` is modelled as an association list with
the usual map semantics (`cacheGet` / `cacheInsert` / `cacheRemove`);
`cacheInsert` replaces any existing binding of the key, exactly like
`HashMap::insert`.
-/

namespace AppManager

/-- Priority of a port claim.  Modelled from the spec: the `PortPriority`
type lives in `composegenerator::v4::types`, outside the provided source
file; the spec asks for an ordered enumeration with at least
`Required > Optional`, and `cli.rs` uses exactly these two levels. -/
inductive PortPriority where
  | Optional
  | Required
deriving DecidableEq, Repr

/-- The strict order `<` on priorities (`Optional < Required`), as used by
`key.priority < priority` in `cli.rs` line 145. -/
def PortPriority.ltP : PortPriority → PortPriority → Bool
  | PortPriority.Optional, PortPriority.Required => true
  | _, _ => false

/-- `PortCacheMapEntry` from `cli.rs` lines 33-42. -/
structure PortCacheMapEntry where
  app : String
  internal_port : Nat
  container : String
  dynamic : Bool
  implements : Option String
  priority : PortPriority
deriving DecidableEq, Repr

/-- `PortCacheMap` (`cli.rs` line 45): public port number -> claim.  The
`HashMap` is modelled as an association list with map semantics. -/
abbrev PortCacheMap := List (Nat × PortCacheMapEntry)

/-- `RESERVED_PORTS` from `cli.rs` lines 47-52. -/
def RESERVED_PORTS : List Nat := [80, 433, 443, 8333]

/-- `HashMap::get`: the binding of key `p`, if any. -/
def cacheGet : PortCacheMap → Nat → Option PortCacheMapEntry
  | [], _ => none
  | (k, v) :: rest, p => if k = p then some v else cacheGet rest p

/-- `HashMap::remove`: drop any binding of key `p`. -/
def cacheRemove (m : PortCacheMap) (p : Nat) : PortCacheMap :=
  m.filter (fun e => e.1 != p)

/-- `HashMap::insert`: bind key `p` to `v`, replacing any previous binding. -/
def cacheInsert (m : PortCacheMap) (p : Nat) (v : PortCacheMapEntry) : PortCacheMap :=
  (p, v) :: cacheRemove m p

@[simp] theorem cacheGet_nil (p : Nat) : cacheGet [] p = none := rfl

@[simp] theorem cacheGet_cons (k : Nat) (v : PortCacheMapEntry) (rest : PortCacheMap)
    (p : Nat) :
    cacheGet ((k, v) :: rest) p = if k = p then some v else cacheGet rest p := rfl

theorem cacheGet_remove (m : PortCacheMap) (p q : Nat) :
    cacheGet (cacheRemove m p) q = if p = q then none else cacheGet m q := by
  induction m with
  | nil => simp [cacheRemove]
  | cons hd tl ih =>
    obtain ⟨k, v⟩ := hd
    by_cases hkp : k = p
    · subst hkp
      have hstep : cacheRemove ((k, v) :: tl) k = cacheRemove tl k := by
        simp [cacheRemove, List.filter_cons]
      rw [hstep, ih]
      by_cases hkq : k = q
      · simp [hkq]
      · simp [hkq]
    · have hbne : (k != p) = true := by simp [hkp]
      have hstep : cacheRemove ((k, v) :: tl) p = (k, v) :: cacheRemove tl p := by
        simp [cacheRemove, List.filter_cons, hbne]
      rw [hstep]
      by_cases hkq : k = q
      · subst hkq
        have hpk : ¬ p = k := fun h => hkp h.symm
        simp [hpk]
      · simp [hkq, ih]

theorem cacheGet_insert (m : PortCacheMap) (p : Nat) (v : PortCacheMapEntry) (q : Nat) :
    cacheGet (cacheInsert m p v) q = if p = q then some v else cacheGet m q := by
  by_cases hpq : p = q
  · simp [cacheInsert, hpq]
  · simp [cacheInsert, hpq, cacheGet_remove]

/-- An upper bound past every key of the cache and every reserved port:
any port `≥ searchBound m` is neither reserved nor claimed. -/
def searchBound (m : PortCacheMap) : Nat :=
  (m.map Prod.fst).foldr max 8334 + 1

theorem le_foldrMax (m : List Nat) : 8334 ≤ m.foldr max 8334 := by
  induction m with
  | nil => simp
  | cons hd tl ih => exact le_trans ih (by simpa using Nat.le_max_right hd (tl.foldr max 8334))

theorem key_le_foldrMax (m : PortCacheMap) (p : Nat) (h : (cacheGet m p).isSome) :
    p ≤ (m.map Prod.fst).foldr max 8334 := by
  induction m with
  | nil => simp [cacheGet] at h
  | cons hd tl ih =>
    obtain ⟨k, v⟩ := hd
    simp only [cacheGet_cons] at h
    simp only [List.map_cons, List.foldr_cons]
    by_cases hk : k = p
    · subst hk
      exact Nat.le_max_left k ((tl.map Prod.fst).foldr max 8334)
    · simp only [hk, if_false] at h
      exact le_trans (ih h) (Nat.le_max_right k ((tl.map Prod.fst).foldr max 8334))

theorem lt_searchBound_of_mem (m : PortCacheMap) (p : Nat)
    (h : (cacheGet m p).isSome) : p < searchBound m := by
  have := key_le_foldrMax m p h
  simp only [searchBound]
  omega

theorem lt_searchBound_of_reserved (m : PortCacheMap) (p : Nat)
    (h : p ∈ RESERVED_PORTS) : p < searchBound m := by
  have h1 : p ≤ 8333 := by
    simp [RESERVED_PORTS] at h
    rcases h with h | h | h | h <;> omega
  have h2 := le_foldrMax (m.map Prod.fst)
  simp only [searchBound]
  omega

theorem lt_searchBound_of_cond (m : PortCacheMap) (p : Nat)
    (h : p ∈ RESERVED_PORTS ∨ (cacheGet m p).isSome) : p < searchBound m := by
  rcases h with hr | hs
  · exact lt_searchBound_of_reserved m p hr
  · exact lt_searchBound_of_mem m p hs

/-- The inner closure `get_new_port` of `cli.rs` lines 125-138: advance from
`p` while the port is reserved or claimed, returning early if the claim at
the current port already belongs to the same (app, container). -/
def get_new_port (cache : PortCacheMap) (app container : String) (p : Nat) : Nat :=
  if hcond : p ∈ RESERVED_PORTS ∨ (cacheGet cache p).isSome then
    match cacheGet cache p with
    | some e =>
      if e.app = app ∧ e.container = container then p
      else get_new_port cache app container (p + 1)
    | none => get_new_port cache app container (p + 1)
  else p
termination_by searchBound cache - p
decreasing_by
  all_goals
    have hp : p < searchBound cache := lt_searchBound_of_cond cache p hcond
    omega

/-- The closure `validate_port` of `cli.rs` lines 118-206 (the spec's
`reserve`): returns whether a usable port was secured, together with the
updated claim table. -/
def validate_port (cache : PortCacheMap) (app container : String) (suggested_port : Nat)
    (priority : PortPriority) (dynamic : Bool) (implements : Option String) :
    Bool × PortCacheMap :=
  match cacheGet cache suggested_port with
  | some key =>
    if (key.app = app ∧ key.container = container) ∨
        (key.implements = implements ∧ container = "service") then
      (true, cache)
    else if key.priority.ltP priority then
      (true,
        cacheInsert
          (cacheInsert (cacheRemove cache suggested_port)
            (get_new_port cache key.app key.container suggested_port) key)
          suggested_port
          ⟨app, suggested_port, container, dynamic, implements, priority⟩)
    else if key.priority = PortPriority.Required ∧ priority = PortPriority.Required then
      (false, cache)
    else
      (true,
        cacheInsert cache (get_new_port cache app container suggested_port)
          ⟨app,
            if dynamic then get_new_port cache app container suggested_port
            else suggested_port,
            container, dynamic, implements, priority⟩)
  | none =>
    if suggested_port ∈ RESERVED_PORTS then
      (true,
        cacheInsert cache (get_new_port cache app container suggested_port)
          ⟨app, suggested_port, container, dynamic, implements, priority⟩)
    else
      (true,
        cacheInsert cache suggested_port
          ⟨app, suggested_port, container, dynamic, implements, priority⟩)

/-- One reserve request, as issued by the pass-1 loop of `convert_dir`. -/
structure ReserveRequest where
  app : String
  container : String
  port : Nat
  priority : PortPriority
  dynamic : Bool
  implements : Option String

/-- Run a sequence of `validate_port` calls, threading the claim table. -/
def run_reserves (cache : PortCacheMap) : List ReserveRequest → PortCacheMap
  | [] => cache
  | r :: rest =>
      run_reserves
        (validate_port cache r.app r.container r.port r.priority r.dynamic r.implements).2
        rest

/-! ## IP allocator (`convert_dir`, `cli.rs` lines 96-105 and 236-248) -/

/-- The IP-assignment state of `convert_dir`: the `ip_map`
(`HashMap<String, String>`, modelled as an association list in insertion
order) and the allocation cursor `current_suffix`. -/
structure IpState where
  ip_map : List (String × String)
  current_suffix : Nat
deriving DecidableEq, Repr

/-- `HashMap::get` on the IP map. -/
def ipLookup : List (String × String) → String → Option String
  | [], _ => none
  | (k, v) :: rest, n => if k = n then some v else ipLookup rest n

/-- `"10.21.21.".to_owned() + current_suffix.to_string()` (`cli.rs` line 245). -/
def mkIp (suffix : Nat) : String := "10.21.21." ++ toString suffix

/-- The per-service IP assignment step of `cli.rs` lines 241-248: if the
env-var name already has an address, nothing happens; otherwise, if the
cursor has reached 255 the run panics ("Too many apps!", modelled as
`none`); otherwise the next sequential address is assigned and the cursor
advances. -/
def assign_ip (s : IpState) (name : String) : Option IpState :=
  if (ipLookup s.ip_map name).isSome then some s
  else if s.current_suffix = 255 then none
  else some ⟨s.ip_map ++ [(name, mkIp s.current_suffix)], s.current_suffix + 1⟩

/-- Assign addresses to a list of env-var names in order, propagating the
fatal "Too many apps!" panic. -/
def assignAll (s : IpState) : List String → Option IpState
  | [] => some s
  | n :: rest =>
    match assign_ip s n with
    | none => none
    | some s2 => assignAll s2 rest

/-! ## Round-robin tor-entry splitter (`cli.rs` lines 517-531) -/

/-- The round-robin split of the collected tor entries over the three
`torrc-apps` files (`cli.rs` lines 517-531): `cur` is the `current_file`
counter, the result is the contents of files 1, 2 and 3 in order. -/
def splitTor : List String → Nat → List String × List String × List String
  | [], _ => ([], [], [])
  | e :: rest, cur =>
    if cur = 1 then
      ((splitTor rest 2).1.cons e, (splitTor rest 2).2.1, (splitTor rest 2).2.2)
    else if cur = 2 then
      ((splitTor rest 3).1, (splitTor rest 3).2.1.cons e, (splitTor rest 3).2.2)
    else if cur = 3 then
      ((splitTor rest 1).1, (splitTor rest 1).2.1, (splitTor rest 1).2.2.cons e)
    else splitTor rest cur

/-! ## Write/abort skeleton of the whole run (`convert_dir`, `cli.rs`
lines 61-586)

The file-system side of `convert_dir` is abstracted to the ordered list of
output-file writes it performs.  Each Boolean of `RunOracle` states that
the corresponding fallible operation of the source fails (an `expect`, an
`unwrap`, a `panic!` or a `?` that aborts the run); a phase's failure is
modelled at the phase's entry, before the phase's own writes.  Events are
emitted in the order the corresponding `File::create`/`write_all` calls
appear in the source. -/

/-- Output files modified by `convert_dir`, in the claim's enumeration. -/
inductive RunEvent where
  | writePortMap
  | writePortCache
  | writeIpMap
  | writeEnv
  | writeCompose
  | writeRegistry
  | writeVirtualApps
  | writeTor
  | writeI2p
  | writeCaddy
deriving DecidableEq, Repr

/-- Which fallible phases of `convert_dir` fail in a given run. -/
structure RunOracle where
  /-- reading the apps directory fails (line 63). -/
  appsDirErr : Bool
  /-- loading `ports.cache.yml` fails (line 114). -/
  portCacheLoadErr : Bool
  /-- `preprocess_apps` fails (line 213). -/
  preprocessAppsErr : Bool
  /-- pass 1 panics (IP exhaustion at line 243 or port assertion). -/
  pass1Err : Bool
  /-- writing the port map / cache / IP map fails (lines 376-388). -/
  portMapWriteErr : Bool
  /-- writing `.env` fails (lines 416-420). -/
  envWriteErr : Bool
  /-- creating a `docker-compose.yml` in pass 2 fails (line 457). -/
  composeWriteErr : Bool
  /-- writing registry / virtual apps / tor / i2p files fails (lines 503-536). -/
  registryWriteErr : Bool
  /-- `preprocess_config_files` fails (line 540). -/
  preprocessConfigErr : Bool
  /-- reading `Caddyfile.jinja` or rendering it fails (lines 546, 566). -/
  caddyTemplateErr : Bool
deriving DecidableEq, Repr

/-- The ordered write events of `convert_dir` together with whether the run
completed (`true`) or aborted with a fatal error (`false`). -/
def convert_dir_trace (o : RunOracle) : List RunEvent × Bool :=
  if o.appsDirErr then ([], false)
  else if o.portCacheLoadErr then ([], false)
  else if o.preprocessAppsErr then ([], false)
  else if o.pass1Err then ([], false)
  else if o.portMapWriteErr then ([], false)
  else if o.envWriteErr then ([RunEvent.writePortMap, RunEvent.writePortCache,
    RunEvent.writeIpMap], false)
  else if o.composeWriteErr then ([RunEvent.writePortMap, RunEvent.writePortCache,
    RunEvent.writeIpMap, RunEvent.writeEnv], false)
  else if o.registryWriteErr then ([RunEvent.writePortMap, RunEvent.writePortCache,
    RunEvent.writeIpMap, RunEvent.writeEnv, RunEvent.writeCompose], false)
  else if o.preprocessConfigErr then ([RunEvent.writePortMap, RunEvent.writePortCache,
    RunEvent.writeIpMap, RunEvent.writeEnv, RunEvent.writeCompose, RunEvent.writeRegistry,
    RunEvent.writeVirtualApps, RunEvent.writeTor, RunEvent.writeI2p], false)
  else if o.caddyTemplateErr then ([RunEvent.writePortMap, RunEvent.writePortCache,
    RunEvent.writeIpMap, RunEvent.writeEnv, RunEvent.writeCompose, RunEvent.writeRegistry,
    RunEvent.writeVirtualApps, RunEvent.writeTor, RunEvent.writeI2p], false)
  else ([RunEvent.writePortMap, RunEvent.writePortCache, RunEvent.writeIpMap,
    RunEvent.writeEnv, RunEvent.writeCompose, RunEvent.writeRegistry,
    RunEvent.writeVirtualApps, RunEvent.writeTor, RunEvent.writeI2p,
    RunEvent.writeCaddy], true)

/-- A fatal failure in a phase that precedes the first output-file write
(part 4 of `convert_dir`). -/
def earlyFatal (o : RunOracle) : Prop :=
  o.appsDirErr = true ∨ o.portCacheLoadErr = true ∨ o.preprocessAppsErr = true ∨
    o.pass1Err = true ∨ o.portMapWriteErr = true

instance (o : RunOracle) : Decidable (earlyFatal o) := by
  unfold earlyFatal
  infer_instance

/-! ## Helper lemmas -/

/-- The representation invariant of the `HashMap`: each public port number
has at most one binding in the claim table. -/
def keysNodup (m : PortCacheMap) : Prop := (m.map Prod.fst).Nodup

theorem cacheGet_eq_none_iff (m : PortCacheMap) (p : Nat) :
    cacheGet m p = none ↔ p ∉ m.map Prod.fst := by
  induction m with
  | nil => simp
  | cons hd tl ih =>
    obtain ⟨k, v⟩ := hd
    by_cases hk : k = p
    · subst hk
      simp
    · have hpk : ¬ p = k := fun hpk2 => hk hpk2.symm
      simp [hk, ih, hpk]

theorem keysNodup_remove (m : PortCacheMap) (p : Nat) (h : keysNodup m) :
    keysNodup (cacheRemove m p) := by
  unfold keysNodup cacheRemove
  have hs : List.Sublist ((List.filter (fun e => e.1 != p) m).map Prod.fst)
      (m.map Prod.fst) :=
    (List.filter_sublist m).map Prod.fst
  exact h.sublist hs

theorem keysNodup_insert (m : PortCacheMap) (p : Nat) (v : PortCacheMapEntry)
    (h : keysNodup m) : keysNodup (cacheInsert m p v) := by
  unfold keysNodup cacheInsert
  simp only [List.map_cons, List.nodup_cons]
  refine ⟨?_, keysNodup_remove m p h⟩
  have hnone : cacheGet (cacheRemove m p) p = none := by
    simp [cacheGet_remove]
  exact (cacheGet_eq_none_iff _ _).1 hnone

theorem get_new_port_unfold (cache : PortCacheMap) (a c : String) (p : Nat) :
    get_new_port cache a c p =
      if p ∈ RESERVED_PORTS ∨ (cacheGet cache p).isSome then
        match cacheGet cache p with
        | some e =>
          if e.app = a ∧ e.container = c then p else get_new_port cache a c (p + 1)
        | none => get_new_port cache a c (p + 1)
      else p := by
  rw [get_new_port, dite_eq_ite]

/-- What the forward search returns for a requester that owns no claim
anywhere in the table: the first port from `p` onward that is neither
reserved nor claimed. -/
theorem get_new_port_fresh (cache : PortCacheMap) (a c : String)
    (hfresh : ∀ q e, cacheGet cache q = some e → ¬(e.app = a ∧ e.container = c))
    (p : Nat) :
    get_new_port cache a c p ∉ RESERVED_PORTS ∧
      cacheGet cache (get_new_port cache a c p) = none ∧
      p ≤ get_new_port cache a c p ∧
      ∀ q, p ≤ q → q < get_new_port cache a c p →
        (q ∈ RESERVED_PORTS ∨ (cacheGet cache q).isSome) := by
  induction p using get_new_port.induct cache a c with
  | case1 x hcond e hsome he => exact absurd he (hfresh x e hsome)
  | case2 x hcond e hsome hne ih =>
    have hx : get_new_port cache a c x = get_new_port cache a c (x + 1) := by
      rw [get_new_port_unfold]
      simp [hcond, hsome, hne]
    rw [hx]
    refine ⟨ih.1, ih.2.1, le_trans (Nat.le_succ x) ih.2.2.1, ?_⟩
    intro q hq1 hq2
    by_cases hqx : q = x
    · subst hqx
      exact hcond
    · exact ih.2.2.2 q (by omega) hq2
  | case3 x hcond hnone ih =>
    have hres : x ∈ RESERVED_PORTS := by
      rcases hcond with h | h
      · exact h
      · simp [hnone] at h
    have hx : get_new_port cache a c x = get_new_port cache a c (x + 1) := by
      rw [get_new_port_unfold]
      simp [hres, hnone]
    rw [hx]
    refine ⟨ih.1, ih.2.1, le_trans (Nat.le_succ x) ih.2.2.1, ?_⟩
    intro q hq1 hq2
    by_cases hqx : q = x
    · subst hqx
      exact hcond
    · exact ih.2.2.2 q (by omega) hq2
  | case4 x hcond =>
    have hx : get_new_port cache a c x = x := by
      rw [get_new_port_unfold]
      simp [hcond]
    rw [hx]
    push_neg at hcond
    refine ⟨hcond.1, ?_, le_refl x, ?_⟩
    · exact Option.not_isSome_iff_eq_none.1 (by simp [hcond.2])
    · intro q hq1 hq2
      omega

theorem ipLookup_append (l1 l2 : List (String × String)) (n : String) :
    ipLookup (l1 ++ l2) n =
      match ipLookup l1 n with
      | some v => some v
      | none => ipLookup l2 n := by
  induction l1 with
  | nil => simp [ipLookup]
  | cons hd tl ih =>
    obtain ⟨k, v⟩ := hd
    by_cases hk : k = n
    · simp [ipLookup, hk]
    · simp [ipLookup, hk, ih]

/-- The addresses handed out to a run of fresh names starting at a given
cursor position: sequential, in first-seen order. -/
def ipAssignments (suffix : Nat) : List String → List (String × String)
  | [] => []
  | n :: rest => (n, mkIp suffix) :: ipAssignments (suffix + 1) rest

theorem assignAll_success (names : List String) :
    ∀ (s : IpState), names.Nodup →
      (∀ n ∈ names, ipLookup s.ip_map n = none) →
      s.current_suffix + names.length ≤ 255 →
      assignAll s names =
        some ⟨s.ip_map ++ ipAssignments s.current_suffix names,
          s.current_suffix + names.length⟩ := by
  induction names with
  | nil =>
    intro s _ _ _
    simp [assignAll, ipAssignments]
  | cons n rest ih =>
    intro s hnodup hfresh hcap
    have hn : ipLookup s.ip_map n = none := hfresh n (by simp)
    have hlt : ¬ s.current_suffix = 255 := by
      simp only [List.length_cons] at hcap
      omega
    have hstep : assign_ip s n =
        some ⟨s.ip_map ++ [(n, mkIp s.current_suffix)], s.current_suffix + 1⟩ := by
      simp [assign_ip, hn, hlt]
    have hfresh2 : ∀ m ∈ rest,
        ipLookup (s.ip_map ++ [(n, mkIp s.current_suffix)]) m = none := by
      intro m hm
      have hnm : ¬ n = m := by
        intro h
        subst h
        exact (List.nodup_cons.1 hnodup).1 hm
      rw [ipLookup_append]
      simp [hfresh m (by simp [hm]), ipLookup, hnm]
    have hrec := ih ⟨s.ip_map ++ [(n, mkIp s.current_suffix)], s.current_suffix + 1⟩
      (List.nodup_cons.1 hnodup).2 hfresh2
      (by simp only [List.length_cons] at hcap; simp; omega)
    simp only [assignAll, hstep]
    rw [hrec]
    simp [ipAssignments, List.length_cons]
    omega

theorem assignAll_fail (names : List String) :
    ∀ (s : IpState), names.Nodup →
      (∀ n ∈ names, ipLookup s.ip_map n = none) →
      s.current_suffix ≤ 255 → 255 < s.current_suffix + names.length →
      assignAll s names = none := by
  induction names with
  | nil =>
    intro s _ _ h1 h2
    simp at h2
    omega
  | cons n rest ih =>
    intro s hnodup hfresh h1 h2
    have hn : ipLookup s.ip_map n = none := hfresh n (by simp)
    by_cases h255 : s.current_suffix = 255
    · simp [assignAll, assign_ip, hn, h255]
    · have hstep : assign_ip s n =
          some ⟨s.ip_map ++ [(n, mkIp s.current_suffix)], s.current_suffix + 1⟩ := by
        simp [assign_ip, hn, h255]
      have hfresh2 : ∀ m ∈ rest,
          ipLookup (s.ip_map ++ [(n, mkIp s.current_suffix)]) m = none := by
        intro m hm
        have hnm : ¬ n = m := by
          intro h
          subst h
          exact (List.nodup_cons.1 hnodup).1 hm
        rw [ipLookup_append]
        simp [hfresh m (by simp [hm]), ipLookup, hnm]
      have hrec := ih ⟨s.ip_map ++ [(n, mkIp s.current_suffix)], s.current_suffix + 1⟩
        (List.nodup_cons.1 hnodup).2 hfresh2 (by simp; omega)
        (by simp only [List.length_cons] at h2; simp; omega)
      simp only [assignAll, hstep]
      exact hrec

/-- Concrete pairwise-distinct env-var names: `spineName k` is the string
of `k` copies of `a`. -/
def spineName (k : Nat) : String := String.mk (List.replicate k 'a')

def spineNames (n : Nat) : List String := (List.range n).map spineName

theorem spineName_length (k : Nat) : (spineName k).length = k := by
  simp [spineName, String.length]

theorem spineNames_nodup (n : Nat) : (spineNames n).Nodup := by
  refine List.Nodup.map ?_ (List.nodup_range n)
  intro j k hjk
  have := congrArg String.length hjk
  simpa [spineName_length] using this

theorem spineNames_length (n : Nat) : (spineNames n).length = n := by
  simp [spineNames]

theorem ltP_not_both_required (x y : PortPriority) (h : PortPriority.ltP x y = true) :
    ¬(x = PortPriority.Required ∧ y = PortPriority.Required) := by
  cases x <;> cases y <;> simp [PortPriority.ltP] at h ⊢

theorem splitTor_cons1_f1 (e : String) (rest : List String) :
    (splitTor (e :: rest) 1).1 = e :: (splitTor rest 2).1 := by simp [splitTor]

theorem splitTor_cons1_f2 (e : String) (rest : List String) :
    (splitTor (e :: rest) 1).2.1 = (splitTor rest 2).2.1 := by simp [splitTor]

theorem splitTor_cons1_f3 (e : String) (rest : List String) :
    (splitTor (e :: rest) 1).2.2 = (splitTor rest 2).2.2 := by simp [splitTor]

theorem splitTor_cons2_f1 (e : String) (rest : List String) :
    (splitTor (e :: rest) 2).1 = (splitTor rest 3).1 := by simp [splitTor]

theorem splitTor_cons2_f2 (e : String) (rest : List String) :
    (splitTor (e :: rest) 2).2.1 = e :: (splitTor rest 3).2.1 := by simp [splitTor]

theorem splitTor_cons2_f3 (e : String) (rest : List String) :
    (splitTor (e :: rest) 2).2.2 = (splitTor rest 3).2.2 := by simp [splitTor]

theorem splitTor_cons3_f1 (e : String) (rest : List String) :
    (splitTor (e :: rest) 3).1 = (splitTor rest 1).1 := by simp [splitTor]

theorem splitTor_cons3_f2 (e : String) (rest : List String) :
    (splitTor (e :: rest) 3).2.1 = (splitTor rest 1).2.1 := by simp [splitTor]

theorem splitTor_cons3_f3 (e : String) (rest : List String) :
    (splitTor (e :: rest) 3).2.2 = e :: (splitTor rest 1).2.2 := by simp [splitTor]

/-- Position-by-position description of the three output buffers for each
possible value of the rotating counter. -/
theorem splitTor_get (l : List String) : ∀ j : Nat,
    ((splitTor l 1).1.get? j = l.get? (3 * j) ∧
     (splitTor l 1).2.1.get? j = l.get? (3 * j + 1) ∧
     (splitTor l 1).2.2.get? j = l.get? (3 * j + 2)) ∧
    ((splitTor l 2).1.get? j = l.get? (3 * j + 2) ∧
     (splitTor l 2).2.1.get? j = l.get? (3 * j) ∧
     (splitTor l 2).2.2.get? j = l.get? (3 * j + 1)) ∧
    ((splitTor l 3).1.get? j = l.get? (3 * j + 1) ∧
     (splitTor l 3).2.1.get? j = l.get? (3 * j + 2) ∧
     (splitTor l 3).2.2.get? j = l.get? (3 * j)) := by
  induction l with
  | nil =>
    intro j
    simp [splitTor]
  | cons e rest ih =>
    intro j
    refine ⟨⟨?_, ?_, ?_⟩, ⟨?_, ?_, ?_⟩, ⟨?_, ?_, ?_⟩⟩
    · rw [splitTor_cons1_f1]
      cases j with
      | zero => simp
      | succ j =>
        have e1 : 3 * (j + 1) = 3 * j + 2 + 1 := by omega
        rw [e1, List.get?_cons_succ, List.get?_cons_succ]
        exact (ih j).2.1.1
    · rw [splitTor_cons1_f2, List.get?_cons_succ]
      exact (ih j).2.1.2.1
    · rw [splitTor_cons1_f3]
      have e1 : 3 * j + 2 = 3 * j + 1 + 1 := by omega
      rw [e1, List.get?_cons_succ]
      exact (ih j).2.1.2.2
    · rw [splitTor_cons2_f1]
      have e1 : 3 * j + 2 = 3 * j + 1 + 1 := by omega
      rw [e1, List.get?_cons_succ]
      exact (ih j).2.2.1
    · rw [splitTor_cons2_f2]
      cases j with
      | zero => simp
      | succ j =>
        have e1 : 3 * (j + 1) = 3 * j + 2 + 1 := by omega
        rw [e1, List.get?_cons_succ, List.get?_cons_succ]
        exact (ih j).2.2.2.1
    · rw [splitTor_cons2_f3, List.get?_cons_succ]
      exact (ih j).2.2.2.2
    · rw [splitTor_cons3_f1, List.get?_cons_succ]
      exact (ih j).1.1
    · rw [splitTor_cons3_f2]
      have e1 : 3 * j + 2 = 3 * j + 1 + 1 := by omega
      rw [e1, List.get?_cons_succ]
      exact (ih j).1.2.1
    · rw [splitTor_cons3_f3]
      cases j with
      | zero => simp
      | succ j =>
        have e1 : 3 * (j + 1) = 3 * j + 2 + 1 := by omega
        rw [e1, List.get?_cons_succ, List.get?_cons_succ]
        exact (ih j).1.2.2

/-- Every branch of `validate_port` preserves the one-claim-per-port
invariant of the claim table. -/
theorem validate_port_keysNodup (cache : PortCacheMap) (a c : String) (port : Nat)
    (pr : PortPriority) (dyn : Bool) (impl : Option String) (h : keysNodup cache) :
    keysNodup (validate_port cache a c port pr dyn impl).2 := by
  unfold validate_port
  cases hm : cacheGet cache port with
  | some key =>
    by_cases h1 : (key.app = a ∧ key.container = c) ∨
        (key.implements = impl ∧ c = "service")
    · simpa [h1] using h
    · by_cases h2 : key.priority.ltP pr
      · simp only [h1, if_false, h2, if_true]
        exact keysNodup_insert _ _ _ (keysNodup_insert _ _ _ (keysNodup_remove _ _ h))
      · by_cases h3 : key.priority = PortPriority.Required ∧ pr = PortPriority.Required
        · simpa [h1, h2, h3] using h
        · simp only [h1, if_false, h2, h3, if_true]
          exact keysNodup_insert _ _ _ h
  | none =>
    by_cases h4 : port ∈ RESERVED_PORTS
    · simp only [h4, if_true]
      exact keysNodup_insert _ _ _ h
    · simp only [h4, if_false]
      exact keysNodup_insert _ _ _ h

/-! ## Claim theorems -/

/-- C1: the spec says that on an eviction (incumbent of a different
(app, container), no alias match, strictly lower priority) the incumbent's
claim is moved to the next free port, so no claim is lost.  The code runs
the forward search while the incumbent still occupies `suggestedPort`, so
the search short-circuits at `suggestedPort` itself (the claim there
matches the searched app/container) and the requester's insert then
overwrites the re-inserted incumbent: the incumbent's claim is lost.
Evaluated at the failing input: app `a` (container `web`, `Optional`)
holds port 3000, app `b` (container `web`) requests 3000 at `Required`;
afterwards `b` holds 3000 and no claim of `a` remains anywhere. -/
theorem C1_eviction_drops_incumbent :
    validate_port [(3000, ⟨"a", 3000, "web", false, none, PortPriority.Optional⟩)]
      "b" "web" 3000 PortPriority.Required false none
    = (true, [(3000, ⟨"b", 3000, "web", false, none, PortPriority.Required⟩)]) ∧
    get_new_port [(3000, ⟨"a", 3000, "web", false, none, PortPriority.Optional⟩)]
      "a" "web" 3000 = 3000 := by
  have hgnp : get_new_port
      [(3000, ⟨"a", 3000, "web", false, none, PortPriority.Optional⟩)]
      "a" "web" 3000 = 3000 := by
    rw [get_new_port]
    simp [cacheGet, RESERVED_PORTS]
  refine ⟨?_, hgnp⟩
  rw [validate_port]
  simp [cacheGet, PortPriority.ltP, cacheInsert, cacheRemove, hgnp]

/-- C2 counterexample: 236 pairwise distinct fresh names, starting from an
empty IP map with the cursor at 20.  The claim says all 236 assignments
succeed; in the code the cursor reaches 255 after 235 assignments and the
236th distinct name triggers the fatal `panic!("Too many apps!")`. -/
theorem C2_counterexample :
    (spineNames 236).Nodup ∧ (spineNames 236).length = 236 ∧
      assignAll ⟨[], 20⟩ (spineNames 236) = none := by
  refine ⟨spineNames_nodup 236, spineNames_length 236, ?_⟩
  refine assignAll_fail (spineNames 236) ⟨[], 20⟩ (spineNames_nodup 236)
    (fun n _ => rfl) (by norm_num) ?_
  rw [spineNames_length]
  norm_num

/-- C2 (amended): starting from an empty IP map with the cursor at 20, any
run of at most 235 distinct fresh names succeeds, each name getting the
next sequential `10.21.21.x` address in first-seen order, while any run of
236 or more distinct names hits the fatal "Too many apps!" error. -/
theorem C2_amended_ip_capacity (names : List String) (h : names.Nodup) :
    (names.length ≤ 235 →
      assignAll ⟨[], 20⟩ names =
        some ⟨ipAssignments 20 names, 20 + names.length⟩) ∧
    (236 ≤ names.length → assignAll ⟨[], 20⟩ names = none) := by
  constructor
  · intro hlen
    exact assignAll_success names ⟨[], 20⟩ h (fun n _ => rfl) (by simp; omega)
  · intro hlen
    exact assignAll_fail names ⟨[], 20⟩ h (fun n _ => rfl) (by norm_num)
      (by simp; omega)

theorem C2_amended_witness :
    assignAll ⟨[], 20⟩ (spineNames 235) =
      some ⟨ipAssignments 20 (spineNames 235), 255⟩ ∧
    assignAll ⟨[], 20⟩ (spineNames 236) = none := by
  constructor
  · have h := (C2_amended_ip_capacity (spineNames 235) (spineNames_nodup 235)).1
      (by rw [spineNames_length])
    rw [h, spineNames_length]
  · exact (C2_amended_ip_capacity (spineNames 236) (spineNames_nodup 236)).2
      (by rw [spineNames_length])

/-- C3: `reserve` returns false exactly when the suggested port is held by
an incumbent of a different (app, container), with no capability-alias
match, and both incumbent and requester carry `Required` priority; every
other call returns true. -/
theorem C3_reserve_false_iff (cache : PortCacheMap) (a c : String) (port : Nat)
    (pr : PortPriority) (dyn : Bool) (impl : Option String) :
    (validate_port cache a c port pr dyn impl).1 = false ↔
      ∃ key, cacheGet cache port = some key ∧
        ¬((key.app = a ∧ key.container = c) ∨
          (key.implements = impl ∧ c = "service")) ∧
        key.priority = PortPriority.Required ∧ pr = PortPriority.Required := by
  unfold validate_port
  split
  next key hm =>
    have hinj : ∀ (P : PortCacheMapEntry → Prop),
        (∃ key2, (some key : Option PortCacheMapEntry) = some key2 ∧ P key2) ↔ P key := by
      intro P
      constructor
      · rintro ⟨key2, hkey2, hp⟩
        injection hkey2 with h
        rw [h]
        exact hp
      · intro hp
        exact ⟨key, rfl, hp⟩
    rw [hm, hinj]
    split
    next h1 => simp [h1]
    next h1 =>
      split
      next h2 =>
        constructor
        · intro hf
          simp at hf
        · rintro ⟨_, hkR, hpR⟩
          exact ((ltP_not_both_required _ _ h2) ⟨hkR, hpR⟩).elim
      next h2 =>
        split
        next h3 =>
          exact ⟨fun _ => ⟨h1, h3.1, h3.2⟩, fun _ => rfl⟩
        next h3 =>
          constructor
          · intro hf
            simp at hf
          · rintro ⟨_, hkR, hpR⟩
            exact (h3 ⟨hkR, hpR⟩).elim
  next hm =>
    rw [hm]
    split
    next h4 => simp
    next h4 => simp

/-- C4 counterexample: a run in which every phase succeeds except reading
the Caddyfile template at the very end (`cli.rs` line 546, a fatal `?`).
The run aborts, yet the port map (and the other part-4 through part-7
artifacts) has already been rewritten — there is no all-or-nothing file
state. -/
theorem C4_counterexample :
    (convert_dir_trace
        ⟨false, false, false, false, false, false, false, false, false, true⟩).2
      = false ∧
    RunEvent.writePortMap ∈
      (convert_dir_trace
        ⟨false, false, false, false, false, false, false, false, false, true⟩).1 := by
  constructor
  · rfl
  · simp [convert_dir_trace]

/-- C4 (amended): output files are rewritten in stages, not atomically at
the end.  A fatal error before the part-4 port-map write (catalog read,
cache load, preprocessing, pass 1, or the port-map write itself) leaves no
output file modified; once past that point the port map has been written
even if a later phase aborts the run; and the full artifact set, ending
with the proxy configuration, is written exactly when the run fully
succeeds. -/
theorem C4_amended_staged_writes (o : RunOracle) :
    (earlyFatal o → (convert_dir_trace o).1 = []) ∧
    (¬ earlyFatal o → RunEvent.writePortMap ∈ (convert_dir_trace o).1) ∧
    ((convert_dir_trace o).2 = true ↔
      (convert_dir_trace o).1 = [RunEvent.writePortMap, RunEvent.writePortCache,
        RunEvent.writeIpMap, RunEvent.writeEnv, RunEvent.writeCompose,
        RunEvent.writeRegistry, RunEvent.writeVirtualApps, RunEvent.writeTor,
        RunEvent.writeI2p, RunEvent.writeCaddy]) := by
  obtain ⟨e1, e2, e3, e4, e5, e6, e7, e8, e9, e10⟩ := o
  cases e1 <;> cases e2 <;> cases e3 <;> cases e4 <;> cases e5 <;> cases e6 <;>
    cases e7 <;> cases e8 <;> cases e9 <;> cases e10 <;> decide

theorem C4_amended_witness :
    RunEvent.writePortMap ∈
      (convert_dir_trace
        ⟨false, false, false, false, false, false, false, false, true, false⟩).1 ∧
    (convert_dir_trace
        ⟨false, false, false, false, false, false, false, false, true, false⟩).2
      = false :=
  ⟨(C4_amended_staged_writes
      ⟨false, false, false, false, false, false, false, false, true, false⟩).2.1
      (by decide),
   by rfl⟩

/-- C5: starting from any claim table satisfying the one-claim-per-port
invariant (which every table loaded from the cache file has, being a
`HashMap` keyed by public port), any sequence of `reserve` calls preserves
it: no two distinct claims ever occupy the same public port number. -/
theorem C5_port_uniqueness (cache : PortCacheMap) (reqs : List ReserveRequest)
    (h : keysNodup cache) : keysNodup (run_reserves cache reqs) := by
  induction reqs generalizing cache with
  | nil => simpa [run_reserves] using h
  | cons r rest ih =>
    simp only [run_reserves]
    exact ih _ (validate_port_keysNodup _ _ _ _ _ _ _ h)

theorem C5_witness :
    keysNodup (run_reserves []
      [⟨"a", "web", 3000, PortPriority.Optional, true, none⟩,
       ⟨"b", "web", 3000, PortPriority.Required, false, none⟩]) :=
  C5_port_uniqueness [] _ (by simp [keysNodup])

/-- C6 counterexample: `suggestedPort` 80 is reserved and unclaimed, but
the requesting (app, container) already holds port 81.  The forward search
short-circuits at 81 — a port that *is* claimed — and the requester is
placed there (overwriting its own old claim), not at the next free
non-reserved port (which would be 82).  So the claim's "placed at the next
free port that is neither reserved nor claimed" fails as stated. -/
theorem C6_counterexample :
    validate_port [(81, ⟨"a", 81, "web", false, none, PortPriority.Optional⟩)]
      "a" "web" 80 PortPriority.Optional false none
    = (true, [(81, ⟨"a", 80, "web", false, none, PortPriority.Optional⟩)]) ∧
    (cacheGet [(81, ⟨"a", 81, "web", false, none, PortPriority.Optional⟩)] 81).isSome
      = true ∧
    (80 : Nat) ∈ RESERVED_PORTS ∧
    cacheGet [(81, ⟨"a", 81, "web", false, none, PortPriority.Optional⟩)] 80 = none := by
  refine ⟨?_, by rfl, by decide, by rfl⟩
  have hgnp : get_new_port [(81, ⟨"a", 81, "web", false, none, PortPriority.Optional⟩)]
      "a" "web" 80 = 81 := by
    rw [get_new_port]
    norm_num [cacheGet, RESERVED_PORTS]
    rw [get_new_port]
    simp [cacheGet]
  rw [validate_port]
  simp [cacheGet, RESERVED_PORTS, hgnp, cacheInsert, cacheRemove]

/-- C6 (amended): when `suggestedPort` is reserved and unclaimed and the
requesting (app, container) holds no claim anywhere in the table, the
requester is granted the next port that is neither reserved nor claimed
(every port between `suggestedPort` and the granted one being reserved or
claimed), with the original `suggestedPort` recorded as its internal port,
and the call returns true.  (If the requester already holds a claim at a
later port, the forward search may instead stop at — and overwrite — that
existing claim.) -/
theorem C6_amended_reserved_redirect (cache : PortCacheMap) (a c : String)
    (port : Nat) (pr : PortPriority) (dyn : Bool) (impl : Option String)
    (hnone : cacheGet cache port = none)
    (hres : port ∈ RESERVED_PORTS)
    (hfresh : ∀ q e, cacheGet cache q = some e → ¬(e.app = a ∧ e.container = c)) :
    validate_port cache a c port pr dyn impl =
      (true, cacheInsert cache (get_new_port cache a c port)
        ⟨a, port, c, dyn, impl, pr⟩) ∧
    get_new_port cache a c port ∉ RESERVED_PORTS ∧
    cacheGet cache (get_new_port cache a c port) = none ∧
    ∀ q, port ≤ q → q < get_new_port cache a c port →
      (q ∈ RESERVED_PORTS ∨ (cacheGet cache q).isSome) := by
  have h := get_new_port_fresh cache a c hfresh port
  refine ⟨?_, h.1, h.2.1, h.2.2.2⟩
  unfold validate_port
  split
  next key hm =>
    rw [hnone] at hm
    simp at hm
  next hm =>
    rw [if_pos hres]

theorem C6_amended_witness :
    validate_port [] "x" "m" 80 PortPriority.Optional false none =
      (true, [(81, ⟨"x", 80, "m", false, none, PortPriority.Optional⟩)]) ∧
    (81 : Nat) ∉ RESERVED_PORTS := by
  have h := C6_amended_reserved_redirect [] "x" "m" 80 PortPriority.Optional false none
    rfl (by decide) (by intro q e he; simp [cacheGet] at he)
  have hgnp : get_new_port [] "x" "m" 80 = 81 := by
    rw [get_new_port]
    norm_num [cacheGet, RESERVED_PORTS]
    rw [get_new_port]
    simp [cacheGet, RESERVED_PORTS]
  refine ⟨?_, by decide⟩
  rw [h.1, hgnp]
  simp [cacheInsert, cacheRemove]

/-- C7: two distinct apps declaring the same capability and requesting the
same free, non-reserved port for the shared-capability container
`"service"`: both calls succeed, the second is a no-op, and the single
claim at that port is the first app's — both apps resolve to the same
public port. -/
theorem C7_capability_alias (cache : PortCacheMap) (a b : String) (p : Nat)
    (x : String) (pr1 pr2 : PortPriority) (d1 d2 : Bool)
    (hab : a ≠ b)
    (hfree : cacheGet cache p = none)
    (hres : p ∉ RESERVED_PORTS) :
    (validate_port cache a "service" p pr1 d1 (some x)).1 = true ∧
    (validate_port ((validate_port cache a "service" p pr1 d1 (some x)).2)
        b "service" p pr2 d2 (some x)).1 = true ∧
    (validate_port ((validate_port cache a "service" p pr1 d1 (some x)).2)
        b "service" p pr2 d2 (some x)).2
      = (validate_port cache a "service" p pr1 d1 (some x)).2 ∧
    cacheGet ((validate_port cache a "service" p pr1 d1 (some x)).2) p
      = some ⟨a, p, "service", d1, some x, pr1⟩ := by
  have h1 : validate_port cache a "service" p pr1 d1 (some x)
      = (true, cacheInsert cache p ⟨a, p, "service", d1, some x, pr1⟩) := by
    unfold validate_port
    split
    next key hm =>
      rw [hfree] at hm
      simp at hm
    next hm =>
      rw [if_neg hres]
  have hget : cacheGet (cacheInsert cache p ⟨a, p, "service", d1, some x, pr1⟩) p
      = some ⟨a, p, "service", d1, some x, pr1⟩ := by
    simp [cacheGet_insert]
  have h2 : validate_port (cacheInsert cache p ⟨a, p, "service", d1, some x, pr1⟩)
        b "service" p pr2 d2 (some x)
      = (true, cacheInsert cache p ⟨a, p, "service", d1, some x, pr1⟩) := by
    unfold validate_port
    split
    next key hm =>
      rw [hget] at hm
      injection hm with hm2
      rw [← hm2]
      rw [if_pos (Or.inr ⟨rfl, rfl⟩)]
    next hm =>
      rw [hget] at hm
      simp at hm
  rw [h1]
  simp [h2, hget]

theorem C7_witness :
    (validate_port [] "a1" "service" 4000 PortPriority.Optional true (some "cap")).1
      = true ∧
    (validate_port ((validate_port [] "a1" "service" 4000 PortPriority.Optional true
        (some "cap")).2) "b1" "service" 4000 PortPriority.Required false
        (some "cap")).1 = true ∧
    (validate_port ((validate_port [] "a1" "service" 4000 PortPriority.Optional true
        (some "cap")).2) "b1" "service" 4000 PortPriority.Required false
        (some "cap")).2
      = (validate_port [] "a1" "service" 4000 PortPriority.Optional true
        (some "cap")).2 ∧
    cacheGet ((validate_port [] "a1" "service" 4000 PortPriority.Optional true
        (some "cap")).2) 4000
      = some ⟨"a1", 4000, "service", true, some "cap", PortPriority.Optional⟩ :=
  C7_capability_alias [] "a1" "b1" 4000 "cap" PortPriority.Optional
    PortPriority.Required true false (by decide) rfl (by decide)

/-- C8: IP assignment is idempotent and stable: a name that already has a
cached address is returned unchanged, with no cursor advance and no map
change; and the request sequence A, B, A allocates exactly two sequential
addresses in first-seen order, the repeated request resolving to the
cached address. -/
theorem C8_ip_assignment_stable :
    (∀ (s : IpState) (name : String), (ipLookup s.ip_map name).isSome = true →
      assign_ip s name = some s) ∧
    (∀ (s : IpState) (A B : String), A ≠ B →
      ipLookup s.ip_map A = none → ipLookup s.ip_map B = none →
      s.current_suffix + 2 ≤ 255 →
      assignAll s [A, B, A] =
        some ⟨s.ip_map ++ [(A, mkIp s.current_suffix),
          (B, mkIp (s.current_suffix + 1))], s.current_suffix + 2⟩ ∧
      ipLookup (s.ip_map ++ [(A, mkIp s.current_suffix),
          (B, mkIp (s.current_suffix + 1))]) A = some (mkIp s.current_suffix)) := by
  constructor
  · intro s name h
    simp [assign_ip, h]
  · intro s A B hAB hA hB hcap
    have h255a : ¬ s.current_suffix = 255 := by omega
    have h255b : ¬ s.current_suffix + 1 = 255 := by omega
    have hlookB : ipLookup (s.ip_map ++ [(A, mkIp s.current_suffix)]) B = none := by
      rw [ipLookup_append]
      simp [hB, ipLookup, hAB]
    have hlookA2 : ipLookup (s.ip_map ++ [(A, mkIp s.current_suffix),
        (B, mkIp (s.current_suffix + 1))]) A = some (mkIp s.current_suffix) := by
      rw [ipLookup_append]
      simp [hA, ipLookup]
    have hstep1 : assign_ip s A =
        some ⟨s.ip_map ++ [(A, mkIp s.current_suffix)], s.current_suffix + 1⟩ := by
      simp [assign_ip, hA, h255a]
    have hstep2 : assign_ip ⟨s.ip_map ++ [(A, mkIp s.current_suffix)],
          s.current_suffix + 1⟩ B =
        some ⟨(s.ip_map ++ [(A, mkIp s.current_suffix)]) ++
          [(B, mkIp (s.current_suffix + 1))], s.current_suffix + 1 + 1⟩ := by
      simp [assign_ip, hlookB, h255b]
    have hstep3 : assign_ip ⟨(s.ip_map ++ [(A, mkIp s.current_suffix)]) ++
          [(B, mkIp (s.current_suffix + 1))], s.current_suffix + 1 + 1⟩ A =
        some ⟨(s.ip_map ++ [(A, mkIp s.current_suffix)]) ++
          [(B, mkIp (s.current_suffix + 1))], s.current_suffix + 1 + 1⟩ := by
      simp [assign_ip, hlookA2]
    constructor
    · simp only [assignAll, hstep1, hstep2, hstep3]
      simp [List.append_assoc]
    · exact hlookA2

theorem C8_witness :
    assign_ip ⟨[("X", "10.21.21.9")], 21⟩ "X" = some ⟨[("X", "10.21.21.9")], 21⟩ ∧
    assignAll ⟨[], 20⟩ ["A", "B", "A"] =
      some ⟨[("A", mkIp 20), ("B", mkIp 21)], 22⟩ ∧
    ipLookup [("A", mkIp 20), ("B", mkIp 21)] "A" = some (mkIp 20) := by
  have h1 := C8_ip_assignment_stable.1 ⟨[("X", "10.21.21.9")], 21⟩ "X"
    (by simp [ipLookup])
  have h2 := C8_ip_assignment_stable.2 ⟨[], 20⟩ "A" "B" (by decide) rfl rfl
    (by norm_num)
  exact ⟨h1, by simpa using h2.1, by simpa using h2.2⟩

/-- C9: entry i of the collected tor entries is written to file 1, 2 or 3
according to i mod 3 (wrapping 1, 2, 3, 1, ...), at position i / 3 of that
file; equivalently, position j of the three files holds the entries with
original indices 3j, 3j+1 and 3j+2 respectively — original collection
order is preserved within each file. -/
theorem C9_round_robin_split (l : List String) (i : Nat) :
    ((splitTor l 1).1.get? i = l.get? (3 * i) ∧
     (splitTor l 1).2.1.get? i = l.get? (3 * i + 1) ∧
     (splitTor l 1).2.2.get? i = l.get? (3 * i + 2)) ∧
    (if i % 3 = 0 then (splitTor l 1).1.get? (i / 3) = l.get? i
     else if i % 3 = 1 then (splitTor l 1).2.1.get? (i / 3) = l.get? i
     else (splitTor l 1).2.2.get? (i / 3) = l.get? i) := by
  refine ⟨(splitTor_get l i).1, ?_⟩
  have h := (splitTor_get l (i / 3)).1
  by_cases h0 : i % 3 = 0
  · rw [if_pos h0]
    have e : 3 * (i / 3) = i := by omega
    have h1 := h.1
    rw [e] at h1
    exact h1
  · rw [if_neg h0]
    by_cases h1m : i % 3 = 1
    · rw [if_pos h1m]
      have e : 3 * (i / 3) + 1 = i := by omega
      have h2 := h.2.1
      rw [e] at h2
      exact h2
    · rw [if_neg h1m]
      have e : 3 * (i / 3) + 2 = i := by omega
      have h3 := h.2.2
      rw [e] at h3
      exact h3

/-- C10: when the suggested port's incumbent belongs to a different
(app, container) but both capability fields are absent (`None`) and the
requester's container is `"service"`, the aliasing short-circuit
(`key.implements == implements && container == "service"`) fires
vacuously: `reserve` returns true and leaves the claim table completely
unchanged, so the requester obtains no claim on any port. -/
theorem C10_vacuous_alias_success (cache : PortCacheMap) (a : String) (p : Nat)
    (key : PortCacheMapEntry) (pr : PortPriority) (dyn : Bool)
    (hsome : cacheGet cache p = some key)
    (hdiff : ¬(key.app = a ∧ key.container = "service"))
    (himpl : key.implements = none) :
    validate_port cache a "service" p pr dyn none = (true, cache) := by
  unfold validate_port
  split
  next key2 hm =>
    rw [hsome] at hm
    injection hm with hm2
    subst hm2
    rw [if_pos (Or.inr ⟨himpl, rfl⟩)]
  next hm =>
    rw [hsome] at hm
    simp at hm

theorem C10_witness :
    validate_port [(5000, ⟨"other", 5000, "web", false, none, PortPriority.Optional⟩)]
      "me" "service" 5000 PortPriority.Required false none
    = (true, [(5000, ⟨"other", 5000, "web", false, none, PortPriority.Optional⟩)]) :=
  C10_vacuous_alias_success
    [(5000, ⟨"other", 5000, "web", false, none, PortPriority.Optional⟩)]
    "me" 5000 ⟨"other", 5000, "web", false, none, PortPriority.Optional⟩
    PortPriority.Required false (by simp [cacheGet]) (by decide) rfl

end AppManager
